import Mathlib

/-!
# Verification of the RotatingKnob angle/value core

Shallow embedding of the `RotatingKnob` widget core from
`widget/rotarycontrol_extend_test.go` (the bisection variant, adopted as
authoritative by the specification).  Go `float64` arithmetic is embedded as
exact rational arithmetic (`ℚ`); the point-to-angle trigonometry
(`getAngleFromPoint`) is embedded over the reals (`ℝ`), with the IEEE sign
bit carried alongside each value entering `math.Atan2`, because Go's `Atan2`
distinguishes `+0` from `-0` and the code reaches `Atan2(+0, -0)` when the
pointer sits on the widget center.  The change
notifications `OnChanged` / `OnChangeEnded` are modelled as an output list of
events: the list records the notifications that would fire were the callbacks
installed.  `Refresh` is rendering-only and not modelled.
-/

/-- The state of a `RotatingKnob`, with the fields the knob math reads and
writes.  Rendering-only fields (`ShowTicks`, `TickCount`, colors, hover/focus
flags) are omitted.  `disabled` models the `DisableableWidget` disabled flag
queried by `k.Disabled()`. -/
structure RotatingKnob where
  Value : ℚ
  Min : ℚ
  Max : ℚ
  Step : ℚ
  StartAngle : ℚ
  EndAngle : ℚ
  Wrapping : Bool
  disabled : Bool
deriving DecidableEq, Repr

/-- A change notification the knob would deliver to its installed callbacks:
`changed v` for `OnChanged(v)`, `changeEnded v` for `OnChangeEnded(v)`. -/
inductive KnobEvent where
  | changed : ℚ → KnobEvent
  | changeEnded : ℚ → KnobEvent
deriving DecidableEq, Repr

/-- The Go loop `for value < lo { value += range }` from the wrapping branch of
`RotatingKnob.SetValue` (and, with `lo = 0, range = 360`, the normalization
loop `for a < 0 { a += 360 }` of `updateValueFromAngle`).  The loop only
terminates for a positive increment, so the proof `0 < range` is an argument. -/
def wrapUp (lo range : ℚ) (h : 0 < range) (v : ℚ) : ℚ :=
  if v < lo then wrapUp lo range h (v + range) else v
termination_by (⌈(lo - v) / range⌉).toNat
decreasing_by
  have hx : (0:ℚ) < (lo - v) / range := div_pos (by linarith) h
  have h1 : (0:ℤ) < ⌈(lo - v) / range⌉ := Int.ceil_pos.mpr hx
  have h2 : (lo - (v + range)) / range = (lo - v) / range - 1 := by
    field_simp
    ring
  rw [h2, Int.ceil_sub_one]
  omega

/-- The Go loop `for value > hi { value -= range }` from the wrapping branch of
`RotatingKnob.SetValue`.  As for `wrapUp`, termination needs `0 < range`. -/
def wrapDown (hi range : ℚ) (h : 0 < range) (v : ℚ) : ℚ :=
  if v > hi then wrapDown hi range h (v - range) else v
termination_by (⌈(v - hi) / range⌉).toNat
decreasing_by
  have hx : (0:ℚ) < (v - hi) / range := div_pos (by linarith) h
  have h1 : (0:ℤ) < ⌈(v - hi) / range⌉ := Int.ceil_pos.mpr hx
  have h2 : (v - range - hi) / range = (v - hi) / range - 1 := by
    field_simp
    ring
  rw [h2, Int.ceil_sub_one]
  omega

/-- The normalization loop `for a < 0 { a += 360 }` of
`RotatingKnob.updateValueFromAngle`, as an instance of `wrapUp`. -/
def normUp (a : ℚ) : ℚ :=
  wrapUp 0 360 (by norm_num) a

/-- The normalization loop `for a >= 360 { a -= 360 }` of
`RotatingKnob.updateValueFromAngle`.  The guard is `≥`, unlike `wrapDown`. -/
def normDown (a : ℚ) : ℚ :=
  if a ≥ 360 then normDown (a - 360) else a
termination_by (⌊a / 360⌋).toNat
decreasing_by
  have h1 : (1:ℤ) ≤ ⌊a / 360⌋ := by
    rw [Int.le_floor]
    push_cast
    rw [le_div_iff₀ (by norm_num : (0:ℚ) < 360)]
    linarith
  have h2 : (a - 360) / 360 = a / 360 - 1 := by
    field_simp
  rw [h2, Int.floor_sub_one]
  omega

/-- Both normalization loops applied to one angle, as
`RotatingKnob.updateValueFromAngle` does for `startAngle` and `endAngle`. -/
def normAngle (a : ℚ) : ℚ :=
  normDown (normUp a)

/-- The two sequential clamping `if`s of `SetValue`'s non-wrapping branch:
`if value < lo { value = lo }; if value > hi { value = hi }`. -/
def clampGo (lo hi v : ℚ) : ℚ :=
  let v1 := if v < lo then lo else v
  if v1 > hi then hi else v1

/-- The value `RotatingKnob.SetValue` will store: the sequential clamp
`if value < Min ... if value > Max ...` when not wrapping, otherwise the two
wrap loops over `valueRange = Max - Min`.  When wrapping with `Max - Min ≤ 0`
the Go loops do not terminate on out-of-range input; that configuration is
modelled as the identity and every claim about wrapping assumes `Min < Max`. -/
def RotatingKnob.setValueRaw (k : RotatingKnob) (value : ℚ) : ℚ :=
  if k.Wrapping = false then
    clampGo k.Min k.Max value
  else if h : 0 < k.Max - k.Min then
    wrapDown k.Max (k.Max - k.Min) h (wrapUp k.Min (k.Max - k.Min) h value)
  else value

/-- `RotatingKnob.SetValue`: clamp or wrap the argument, return unchanged with
no notification if the result equals the stored value, otherwise store it and
fire `OnChanged` with the new value. -/
def RotatingKnob.SetValue (k : RotatingKnob) (value : ℚ) :
    RotatingKnob × List KnobEvent :=
  let v := k.setValueRaw value
  if k.Value = v then (k, [])
  else ({ k with Value := v }, [KnobEvent.changed v])

/-- Go's `math.Mod(x, 1)` for the one use in `updateValueFromAngle`: the
guard there ensures the argument is `> 1`, where truncated remainder and
floor fractional part agree. -/
def fracPart (x : ℚ) : ℚ :=
  x - ⌊x⌋

/-- The value computation of `RotatingKnob.updateValueFromAngle`, up to the
final `SetValue` call: normalize the configured angles, compute the sweep and
the angle relative to the start, resolve the dead zone by bisection when not
wrapping, and convert the resulting ratio to a value. -/
def RotatingKnob.angleToValue (k : RotatingKnob) (angle : ℚ) : ℚ :=
  let startAngle := normAngle k.StartAngle
  let endAngle := normAngle k.EndAngle
  let sweep0 := endAngle - startAngle
  let sweep := if sweep0 < 0 then sweep0 + 360 else sweep0
  let rel0 := angle - startAngle
  let rel1 := if rel0 < 0 then rel0 + 360 else rel0
  let rel2 :=
    if k.Wrapping = false ∧ rel1 > sweep then
      let deadZone := 360 - sweep
      if rel1 < sweep + deadZone / 2 then sweep else 0
    else rel1
  let r0 := rel2 / sweep
  let r1 := if r0 > 1 then fracPart r0 else r0
  k.Min + r1 * (k.Max - k.Min)

/-- `RotatingKnob.updateValueFromAngle`: convert the pointer angle to a value
and delegate to `SetValue` for the final clamp/wrap and notification. -/
def RotatingKnob.updateValueFromAngle (k : RotatingKnob) (angle : ℚ) :
    RotatingKnob × List KnobEvent :=
  k.SetValue (k.angleToValue angle)

/-- The key names `RotatingKnob.TypedKey` reacts to; `other` stands for every
other key, for which the Go `switch` does nothing. -/
inductive KeyName where
  | up | down | left | right | pageUp | pageDown | home | kEnd | other
deriving DecidableEq, Repr

/-- `RotatingKnob.TypedKey`: ignore input when disabled, otherwise use the
step (`Step`, or 1% of the range when `Step == 0`) to adjust the value via
`SetValue`, and fire `OnChangeEnded` with the resulting value after each
recognized key. -/
def RotatingKnob.TypedKey (k : RotatingKnob) (key : KeyName) :
    RotatingKnob × List KnobEvent :=
  if k.disabled then (k, [])
  else
    let step := if k.Step = 0 then (k.Max - k.Min) / 100 else k.Step
    match key with
    | .up | .right =>
        let p := k.SetValue (k.Value + step)
        (p.1, p.2 ++ [KnobEvent.changeEnded p.1.Value])
    | .down | .left =>
        let p := k.SetValue (k.Value - step)
        (p.1, p.2 ++ [KnobEvent.changeEnded p.1.Value])
    | .pageUp =>
        let p := k.SetValue (k.Value + step * 10)
        (p.1, p.2 ++ [KnobEvent.changeEnded p.1.Value])
    | .pageDown =>
        let p := k.SetValue (k.Value - step * 10)
        (p.1, p.2 ++ [KnobEvent.changeEnded p.1.Value])
    | .home =>
        let p := k.SetValue k.Min
        (p.1, p.2 ++ [KnobEvent.changeEnded p.1.Value])
    | .kEnd =>
        let p := k.SetValue k.Max
        (p.1, p.2 ++ [KnobEvent.changeEnded p.1.Value])
    | .other => (k, [])

/-- `RotatingKnob.Scrolled`: ignore input when disabled, otherwise step the
value up or down by the effective step according to the sign of the vertical
scroll delta, then fire `OnChangeEnded` with the current value. -/
def RotatingKnob.Scrolled (k : RotatingKnob) (dy : ℚ) :
    RotatingKnob × List KnobEvent :=
  if k.disabled then (k, [])
  else
    let step := if k.Step = 0 then (k.Max - k.Min) / 100 else k.Step
    let p :=
      if dy > 0 then k.SetValue (k.Value + step)
      else if dy < 0 then k.SetValue (k.Value - step)
      else (k, [])
    (p.1, p.2 ++ [KnobEvent.changeEnded p.1.Value])

/-- `RotatingKnob.Dragged`: the Go handler computes
`getAngleFromPoint(e.Position)` — real-valued trigonometry modelled
separately as `getAngleFromPoint` below — and feeds the angle to
`updateValueFromAngle`.  The handler here takes that angle directly. -/
def RotatingKnob.Dragged (k : RotatingKnob) (angle : ℚ) :
    RotatingKnob × List KnobEvent :=
  if k.disabled then (k, [])
  else k.updateValueFromAngle angle

/-- `RotatingKnob.Tapped`: like `Dragged` but additionally fires
`OnChangeEnded` with the resulting value. -/
def RotatingKnob.Tapped (k : RotatingKnob) (angle : ℚ) :
    RotatingKnob × List KnobEvent :=
  if k.disabled then (k, [])
  else
    let p := k.updateValueFromAngle angle
    (p.1, p.2 ++ [KnobEvent.changeEnded p.1.Value])

/-- A real number carrying an IEEE sign bit, modelling a Go `float64` where
signed zeros matter: `neg` is the sign bit, meaningful when `val = 0`
(`⟨0, false⟩` is `+0`, `⟨0, true⟩` is `-0`); for a nonzero value it agrees
with the sign of `val`. -/
structure SReal where
  val : ℝ
  neg : Bool

/-- IEEE subtraction of two exact reals: a zero result is `+0` (rounding to
nearest yields `+0` whenever `a - b = 0`), otherwise the sign bit follows
the value. -/
noncomputable def SReal.sub (a b : ℝ) : SReal :=
  ⟨a - b, if a - b < 0 then true else false⟩

/-- IEEE negation: flips the sign bit, also on zero (`-(+0) = -0`). -/
def SReal.negate (v : SReal) : SReal :=
  ⟨-v.val, !v.neg⟩

/-- Go's two-argument arctangent `math.Atan2(y, x)` on finite arguments,
with its documented signed-zero special cases: `Atan2(±0, x)` is `±0` when
`x >= 0` with a clear sign bit and `±π` otherwise (so `Atan2(+0, -0) = π`);
`Atan2(y≠0, ±0) = ±π/2`; otherwise `q = Atan(y/x)`, shifted by `±π` when
`x < 0` according to the sign of `q`.  The result is returned as a plain
real (`±0` results collapse to `0`, which downstream code cannot
distinguish: it only multiplies, divides and compares the result). -/
noncomputable def atan2 (y x : SReal) : ℝ :=
  if y.val = 0 then
    (if 0 ≤ x.val ∧ x.neg = false then 0
     else if y.neg then -Real.pi else Real.pi)
  else if x.val = 0 then
    (if 0 < y.val then Real.pi / 2 else -(Real.pi / 2))
  else
    let q := Real.arctan (y.val / x.val)
    if x.val < 0 then (if q ≤ 0 then q + Real.pi else q - Real.pi) else q

/-- `RotatingKnob.getAngleFromPoint`: angle in degrees of the event position
relative to the widget center, measured clockwise from "up", computed as
`atan2(dx, -dy)` converted to degrees and shifted into `[0, 360)`.  The
subtractions and the negation track the IEEE sign bit, which `atan2` reads
on zero arguments. -/
noncomputable def getAngleFromPoint (width height px py : ℝ) : ℝ :=
  let centerX := width / 2
  let centerY := height / 2
  let dx := SReal.sub px centerX
  let dy := SReal.sub py centerY
  let radians := atan2 dx dy.negate
  let degrees := radians * 180 / Real.pi
  if degrees < 0 then degrees + 360 else degrees

/-! ## Loop lemmas -/

theorem wrapUp_of_not_lt {lo range : ℚ} (h : 0 < range) {v : ℚ}
    (hv : ¬ v < lo) : wrapUp lo range h v = v := by
  rw [wrapUp]
  simp [hv]

theorem wrapUp_of_lt {lo range : ℚ} (h : 0 < range) {v : ℚ}
    (hv : v < lo) : wrapUp lo range h v = wrapUp lo range h (v + range) := by
  conv_lhs => rw [wrapUp]
  simp [hv]

theorem wrapUp_ge (lo range : ℚ) (h : 0 < range) (v : ℚ) :
    lo ≤ wrapUp lo range h v := by
  induction v using wrapUp.induct lo range h with
  | case1 v hv ih => rw [wrapUp_of_lt h hv]; exact ih
  | case2 v hv => rw [wrapUp_of_not_lt h hv]; linarith

theorem wrapUp_eq_add_nat (lo range : ℚ) (h : 0 < range) (v : ℚ) :
    ∃ n : ℕ, wrapUp lo range h v = v + n * range := by
  induction v using wrapUp.induct lo range h with
  | case1 v hv ih =>
      obtain ⟨n, hn⟩ := ih
      exact ⟨n + 1, by rw [wrapUp_of_lt h hv, hn]; push_cast; ring⟩
  | case2 v hv => exact ⟨0, by rw [wrapUp_of_not_lt h hv]; push_cast; ring⟩

theorem wrapDown_of_not_gt {hi range : ℚ} (h : 0 < range) {v : ℚ}
    (hv : ¬ v > hi) : wrapDown hi range h v = v := by
  rw [wrapDown]
  simp [hv]

theorem wrapDown_of_gt {hi range : ℚ} (h : 0 < range) {v : ℚ}
    (hv : v > hi) : wrapDown hi range h v = wrapDown hi range h (v - range) := by
  conv_lhs => rw [wrapDown]
  simp [hv]

theorem wrapDown_le (hi range : ℚ) (h : 0 < range) (v : ℚ) :
    wrapDown hi range h v ≤ hi := by
  induction v using wrapDown.induct hi range h with
  | case1 v hv ih => rw [wrapDown_of_gt h hv]; exact ih
  | case2 v hv => rw [wrapDown_of_not_gt h hv]; linarith

theorem wrapDown_ge (hi range : ℚ) (h : 0 < range) (v : ℚ)
    (hv : hi - range ≤ v) : hi - range ≤ wrapDown hi range h v := by
  induction v using wrapDown.induct hi range h with
  | case1 v hv' ih => rw [wrapDown_of_gt h hv']; exact ih (by linarith)
  | case2 v hv' => rw [wrapDown_of_not_gt h hv']; exact hv

theorem wrapDown_eq_sub_nat (hi range : ℚ) (h : 0 < range) (v : ℚ) :
    ∃ n : ℕ, wrapDown hi range h v = v - n * range := by
  induction v using wrapDown.induct hi range h with
  | case1 v hv ih =>
      obtain ⟨n, hn⟩ := ih
      exact ⟨n + 1, by rw [wrapDown_of_gt h hv, hn]; push_cast; ring⟩
  | case2 v hv => exact ⟨0, by rw [wrapDown_of_not_gt h hv]; push_cast; ring⟩

theorem normDown_of_lt {a : ℚ} (ha : a < 360) : normDown a = a := by
  rw [normDown]
  simp [not_le.mpr ha]

theorem normDown_of_ge {a : ℚ} (ha : 360 ≤ a) :
    normDown a = normDown (a - 360) := by
  conv_lhs => rw [normDown]
  simp [ha]

theorem normAngle_of_mem {a : ℚ} (h0 : 0 ≤ a) (h1 : a < 360) :
    normAngle a = a := by
  unfold normAngle normUp
  rw [wrapUp_of_not_lt _ (not_lt.mpr h0), normDown_of_lt h1]

theorem normAngle_neg135 : normAngle (-135) = 225 := by
  unfold normAngle normUp
  rw [wrapUp_of_lt _ (by norm_num)]
  norm_num
  rw [wrapUp_of_not_lt _ (by norm_num), normDown_of_lt (by norm_num)]

/-! ## `SetValue` lemmas -/

theorem SetValue_fst_Value (k : RotatingKnob) (v : ℚ) :
    (k.SetValue v).1.Value = k.setValueRaw v := by
  by_cases hc : k.Value = k.setValueRaw v <;>
    simp [RotatingKnob.SetValue, hc]

theorem SetValue_fst_config (k : RotatingKnob) (v : ℚ) :
    (k.SetValue v).1.Min = k.Min ∧ (k.SetValue v).1.Max = k.Max ∧
    (k.SetValue v).1.Step = k.Step ∧
    (k.SetValue v).1.StartAngle = k.StartAngle ∧
    (k.SetValue v).1.EndAngle = k.EndAngle ∧
    (k.SetValue v).1.Wrapping = k.Wrapping ∧
    (k.SetValue v).1.disabled = k.disabled := by
  by_cases hc : k.Value = k.setValueRaw v <;>
    simp [RotatingKnob.SetValue, hc]

theorem SetValue_of_eq {k : RotatingKnob} {v : ℚ}
    (h : k.setValueRaw v = k.Value) : k.SetValue v = (k, []) := by
  simp [RotatingKnob.SetValue, h.symm]

theorem SetValue_of_ne {k : RotatingKnob} {v : ℚ}
    (h : k.setValueRaw v ≠ k.Value) :
    k.SetValue v =
      ({ k with Value := k.setValueRaw v },
       [KnobEvent.changed (k.setValueRaw v)]) := by
  simp [RotatingKnob.SetValue, Ne.symm h]

theorem clampGo_mem {lo hi : ℚ} (h : lo ≤ hi) (v : ℚ) :
    lo ≤ clampGo lo hi v ∧ clampGo lo hi v ≤ hi := by
  simp only [clampGo]
  by_cases h1 : v < lo
  · simp only [if_pos h1]
    rw [if_neg (not_lt.mpr h)]
    exact ⟨le_refl _, h⟩
  · simp only [if_neg h1]
    by_cases h2 : v > hi
    · rw [if_pos h2]
      exact ⟨h, le_refl _⟩
    · rw [if_neg h2]
      exact ⟨not_lt.mp h1, not_lt.mp h2⟩

theorem clampGo_of_mem {lo hi v : ℚ} (hmin : lo ≤ v) (hmax : v ≤ hi) :
    clampGo lo hi v = v := by
  simp [clampGo, not_lt.mpr hmin, not_lt.mpr hmax]

theorem setValueRaw_mem {k : RotatingKnob} (hlt : k.Min < k.Max) (v : ℚ) :
    k.Min ≤ k.setValueRaw v ∧ k.setValueRaw v ≤ k.Max := by
  unfold RotatingKnob.setValueRaw
  split
  · exact clampGo_mem (le_of_lt hlt) v
  · have hr : 0 < k.Max - k.Min := by linarith
    rw [dif_pos hr]
    refine ⟨?_, wrapDown_le _ _ _ _⟩
    have h1 := wrapUp_ge k.Min (k.Max - k.Min) hr v
    have h2 := wrapDown_ge k.Max (k.Max - k.Min) hr
      (wrapUp k.Min (k.Max - k.Min) hr v) (by linarith)
    linarith

theorem setValueRaw_of_mem {k : RotatingKnob} {v : ℚ}
    (hmin : k.Min ≤ v) (hmax : v ≤ k.Max) : k.setValueRaw v = v := by
  unfold RotatingKnob.setValueRaw
  split
  · exact clampGo_of_mem hmin hmax
  · split
    · next hr =>
        rw [wrapUp_of_not_lt hr (not_lt.mpr hmin),
            wrapDown_of_not_gt hr (not_lt.mpr hmax)]
    · rfl

/-! ## Auxiliary definitions for the claims -/

/-- Whether a notification is an `OnChanged` delivery. -/
def KnobEvent.isChanged : KnobEvent → Bool
  | .changed _ => true
  | .changeEnded _ => false

/-- How many `OnChanged` notifications a list of events contains. -/
def countChanged (es : List KnobEvent) : ℕ :=
  (es.filter KnobEvent.isChanged).length

/-- A concrete non-wrapping knob: the `NewRotatingKnob(0, 100)` configuration
(value at the midpoint, default angles `-135, 135`), with `Step = 1`. -/
def demoKnob : RotatingKnob :=
  { Value := 50, Min := 0, Max := 100, Step := 1,
    StartAngle := -135, EndAngle := 135, Wrapping := false, disabled := false }

/-- The same knob with `Wrapping` enabled. -/
def wrapKnob : RotatingKnob :=
  { demoKnob with Wrapping := true }

/-- The same knob disabled. -/
def offKnob : RotatingKnob :=
  { demoKnob with disabled := true }

/-- A knob over `[0, 100]` with a half-circle sweep from angle `0` to `180`. -/
def halfKnob : RotatingKnob :=
  { demoKnob with StartAngle := 0, EndAngle := 180 }

/-- Fuel-indexed form of the loop `for value < lo { value += range }`: `none`
means the loop has not finished within `fuel` iterations, `some` its result. -/
def wrapUpFuel (lo range : ℚ) : ℕ → ℚ → Option ℚ
  | 0, v => if v < lo then none else some v
  | n + 1, v => if v < lo then wrapUpFuel lo range n (v + range) else some v

/-- Fuel-indexed form of the loop `for value > hi { value -= range }`. -/
def wrapDownFuel (hi range : ℚ) : ℕ → ℚ → Option ℚ
  | 0, v => if v > hi then none else some v
  | n + 1, v => if v > hi then wrapDownFuel hi range n (v - range) else some v

/-- Fuel-indexed form of the loop `for a >= 360 { a -= 360 }`. -/
def normDownFuel : ℕ → ℚ → Option ℚ
  | 0, a => if a ≥ 360 then none else some a
  | n + 1, a => if a ≥ 360 then normDownFuel n (a - 360) else some a

/-! ## Claims -/

/-- C2: with `Wrapping = false`, `SetValue(v)` stores the clamp of `v` into
`[Min, Max]`: `Min` when `v < Min`, `Max` when `v > Max`, and exactly `v`
when `Min ≤ v ≤ Max`. -/
theorem setValue_clamps (k : RotatingKnob) (v : ℚ)
    (hw : k.Wrapping = false) (hle : k.Min ≤ k.Max) :
    (v < k.Min → (k.SetValue v).1.Value = k.Min) ∧
    (v > k.Max → (k.SetValue v).1.Value = k.Max) ∧
    (k.Min ≤ v → v ≤ k.Max → (k.SetValue v).1.Value = v) := by
  simp only [SetValue_fst_Value, RotatingKnob.setValueRaw, hw, if_pos]
  refine ⟨fun h1 => ?_, fun h2 => ?_, fun h3 h4 => ?_⟩
  · simp [clampGo, h1, not_lt.mpr hle]
  · simp [clampGo, not_lt.mpr (le_trans hle (le_of_lt h2)), h2]
  · exact clampGo_of_mem h3 h4

/-- Witness for C2 at a concrete knob: `SetValue(150)` on range `[0, 100]`
stores `100`, `SetValue(-10)` stores `0`, `SetValue(70)` stores `70`. -/
theorem setValue_clamps_witness :
    (demoKnob.SetValue 150).1.Value = 100 ∧
    (demoKnob.SetValue (-10)).1.Value = 0 ∧
    (demoKnob.SetValue 70).1.Value = 70 :=
  ⟨(setValue_clamps demoKnob 150 rfl (by norm_num [demoKnob])).2.1
     (by norm_num [demoKnob]),
   (setValue_clamps demoKnob (-10) rfl (by norm_num [demoKnob])).1
     (by norm_num [demoKnob]),
   (setValue_clamps demoKnob 70 rfl (by norm_num [demoKnob])).2.2
     (by norm_num [demoKnob]) (by norm_num [demoKnob])⟩

/-- C3: with `Wrapping = true` and `Min < Max`, the stored value after
`SetValue(v)` lies in `[Min, Max]` and differs from `v` by an integer
multiple of `Max - Min`; concretely on `[0, 100]`, `SetValue(-10)` stores
`90` and `SetValue(110)` stores `10`. -/
theorem setValue_wraps :
    (∀ (k : RotatingKnob) (v : ℚ), k.Wrapping = true → k.Min < k.Max →
      k.Min ≤ (k.SetValue v).1.Value ∧ (k.SetValue v).1.Value ≤ k.Max ∧
      ∃ z : ℤ, (k.SetValue v).1.Value = v + z * (k.Max - k.Min)) ∧
    (wrapKnob.SetValue (-10)).1.Value = 90 ∧
    (wrapKnob.SetValue 110).1.Value = 10 := by
  have hup : ∀ (lo range : ℚ) (h : 0 < range) (v : ℚ),
      ∃ z : ℤ, wrapUp lo range h v = v + z * range := by
    intro lo range h v
    obtain ⟨n, hn⟩ := wrapUp_eq_add_nat lo range h v
    exact ⟨n, by rw [hn]; push_cast; ring⟩
  have hdown : ∀ (hi range : ℚ) (h : 0 < range) (v : ℚ),
      ∃ z : ℤ, wrapDown hi range h v = v + z * range := by
    intro hi range h v
    obtain ⟨n, hn⟩ := wrapDown_eq_sub_nat hi range h v
    exact ⟨-n, by rw [hn]; push_cast; ring⟩
  refine ⟨fun k v hw hlt => ?_, ?_, ?_⟩
  · obtain ⟨h1, h2⟩ := setValueRaw_mem hlt v
    refine ⟨by rw [SetValue_fst_Value]; exact h1,
            by rw [SetValue_fst_Value]; exact h2, ?_⟩
    rw [SetValue_fst_Value]
    unfold RotatingKnob.setValueRaw
    rw [if_neg (by simp [hw]), dif_pos (by linarith : 0 < k.Max - k.Min)]
    obtain ⟨z1, hz1⟩ := hup k.Min (k.Max - k.Min) (by linarith) v
    obtain ⟨z2, hz2⟩ := hdown k.Max (k.Max - k.Min) (by linarith)
      (wrapUp k.Min (k.Max - k.Min) (by linarith) v)
    exact ⟨z1 + z2, by rw [hz2, hz1]; push_cast; ring⟩
  · rw [SetValue_fst_Value]
    unfold RotatingKnob.setValueRaw
    norm_num [wrapKnob, demoKnob]
    rw [wrapUp_of_lt _ (by norm_num)]
    norm_num
    rw [wrapUp_of_not_lt _ (by norm_num), wrapDown_of_not_gt _ (by norm_num)]
  · rw [SetValue_fst_Value]
    unfold RotatingKnob.setValueRaw
    norm_num [wrapKnob, demoKnob]
    rw [wrapUp_of_not_lt _ (by norm_num), wrapDown_of_gt _ (by norm_num)]
    norm_num
    rw [wrapDown_of_not_gt _ (by norm_num)]

/-- Witness for C3: the wrapped value for `v = 250` on the wrapping knob over
`[0, 100]` is in range and congruent to `250` modulo `100`. -/
theorem setValue_wraps_witness :
    wrapKnob.Min ≤ (wrapKnob.SetValue 250).1.Value ∧
    (wrapKnob.SetValue 250).1.Value ≤ wrapKnob.Max ∧
    ∃ z : ℤ, (wrapKnob.SetValue 250).1.Value = 250 + z * (wrapKnob.Max - wrapKnob.Min) :=
  setValue_wraps.1 wrapKnob 250 rfl (by norm_num [wrapKnob, demoKnob])

/-- C6: `SetValue` is a no-op when the clamped/wrapped result equals the
stored value (no state change, no `OnChanged`); consequently, two successive
`SetValue(v)` calls with an in-range `v` different from the current value
fire `OnChanged` exactly once in total. -/
theorem setValue_noop_on_equal :
    (∀ (k : RotatingKnob) (v : ℚ), k.setValueRaw v = k.Value →
      k.SetValue v = (k, [])) ∧
    (∀ (k : RotatingKnob) (v : ℚ), k.Min ≤ k.Max →
      k.Min ≤ v → v ≤ k.Max → v ≠ k.Value →
      countChanged ((k.SetValue v).2 ++ ((k.SetValue v).1.SetValue v).2) = 1) := by
  refine ⟨fun k v h => SetValue_of_eq h, fun k v hle hmin hmax hne => ?_⟩
  have hraw : k.setValueRaw v = v := setValueRaw_of_mem hmin hmax
  have h1 : k.SetValue v =
      ({ k with Value := v }, [KnobEvent.changed v]) := by
    have := SetValue_of_ne (k := k) (v := v) (by rw [hraw]; exact hne)
    rwa [hraw] at this
  have hraw2 : ({ k with Value := v } : RotatingKnob).setValueRaw v = v :=
    setValueRaw_of_mem (k := { k with Value := v }) hmin hmax
  have h2 : ({ k with Value := v } : RotatingKnob).SetValue v =
      ({ k with Value := v }, []) := SetValue_of_eq (by rw [hraw2])
  rw [h1]
  simp only [h2]
  simp [countChanged, KnobEvent.isChanged]

/-- Witness for C6 on the concrete knob: setting `70` twice from `50` fires
one `OnChanged` in total; and a `SetValue` whose result equals the current
value returns the state unchanged with no events. -/
theorem setValue_noop_on_equal_witness :
    demoKnob.SetValue 50 = (demoKnob, []) ∧
    countChanged ((demoKnob.SetValue 70).2 ++
      ((demoKnob.SetValue 70).1.SetValue 70).2) = 1 :=
  ⟨setValue_noop_on_equal.1 demoKnob 50
     (setValueRaw_of_mem (by norm_num [demoKnob]) (by norm_num [demoKnob])),
   setValue_noop_on_equal.2 demoKnob 70 (by norm_num [demoKnob])
     (by norm_num [demoKnob]) (by norm_num [demoKnob]) (by norm_num [demoKnob])⟩

/-- C4: with `StartAngle = 0`, `EndAngle = 180`, `Wrapping = false` (and a
well-formed range), `updateValueFromAngle` maps angle `0` to `Min`, angle
`180` to `Max` and angle `90` to the midpoint `(Min + Max) / 2`. -/
theorem angle_boundary_mapping (k : RotatingKnob)
    (hs : k.StartAngle = 0) (he : k.EndAngle = 180)
    (hw : k.Wrapping = false) (hle : k.Min ≤ k.Max) :
    (k.updateValueFromAngle 0).1.Value = k.Min ∧
    (k.updateValueFromAngle 180).1.Value = k.Max ∧
    (k.updateValueFromAngle 90).1.Value = (k.Min + k.Max) / 2 := by
  have h0 : k.angleToValue 0 = k.Min := by
    simp only [RotatingKnob.angleToValue, hs, he, hw,
      @normAngle_of_mem 0 (by norm_num) (by norm_num),
      @normAngle_of_mem 180 (by norm_num) (by norm_num)]
    norm_num
  have h180 : k.angleToValue 180 = k.Min + (k.Max - k.Min) := by
    simp only [RotatingKnob.angleToValue, hs, he, hw,
      @normAngle_of_mem 0 (by norm_num) (by norm_num),
      @normAngle_of_mem 180 (by norm_num) (by norm_num)]
    norm_num
  have h90 : k.angleToValue 90 = k.Min + (1 / 2) * (k.Max - k.Min) := by
    simp only [RotatingKnob.angleToValue, hs, he, hw,
      @normAngle_of_mem 0 (by norm_num) (by norm_num),
      @normAngle_of_mem 180 (by norm_num) (by norm_num)]
    norm_num
  refine ⟨?_, ?_, ?_⟩
  · rw [RotatingKnob.updateValueFromAngle, SetValue_fst_Value, h0,
      setValueRaw_of_mem (le_refl _) hle]
  · rw [RotatingKnob.updateValueFromAngle, SetValue_fst_Value, h180,
      setValueRaw_of_mem (by linarith) (by linarith)]
    ring
  · rw [RotatingKnob.updateValueFromAngle, SetValue_fst_Value, h90,
      setValueRaw_of_mem (by linarith) (by linarith)]
    ring

/-- Witness for C4: a knob over `[0, 100]` with the half-circle sweep maps
angles `0`, `180`, `90` to values `0`, `100`, `50`. -/
theorem angle_boundary_mapping_witness :
    (halfKnob.updateValueFromAngle 0).1.Value = halfKnob.Min ∧
    (halfKnob.updateValueFromAngle 180).1.Value = halfKnob.Max ∧
    (halfKnob.updateValueFromAngle 90).1.Value = (halfKnob.Min + halfKnob.Max) / 2 :=
  angle_boundary_mapping halfKnob rfl rfl rfl (by norm_num [halfKnob, demoKnob])

/-- C1 counterexample: on the knob with `min = 0, max = 100,
StartAngle = -135, EndAngle = 135, Wrapping = false`, a pointer angle of
`200°` does NOT yield `Value = 100`, and a pointer angle of `340°` does NOT
yield `Value = 0`, contrary to the claim. -/
theorem deadzone_claim_counterexample :
    (demoKnob.updateValueFromAngle 200).1.Value ≠ 100 ∧
    (demoKnob.updateValueFromAngle 340).1.Value ≠ 0 := by
  have h200 : demoKnob.angleToValue 200 = 0 := by
    simp only [RotatingKnob.angleToValue, demoKnob, normAngle_neg135,
      @normAngle_of_mem 135 (by norm_num) (by norm_num)]
    norm_num
  have h340 : demoKnob.angleToValue 340 = 1150 / 27 := by
    simp only [RotatingKnob.angleToValue, demoKnob, normAngle_neg135,
      @normAngle_of_mem 135 (by norm_num) (by norm_num)]
    norm_num
  constructor
  · rw [RotatingKnob.updateValueFromAngle, SetValue_fst_Value, h200,
      setValueRaw_of_mem (by norm_num [demoKnob]) (by norm_num [demoKnob])]
    norm_num
  · rw [RotatingKnob.updateValueFromAngle, SetValue_fst_Value, h340,
      setValueRaw_of_mem (by norm_num [demoKnob]) (by norm_num [demoKnob])]
    norm_num

/-- C1 amended: on that knob (sweep `270°`, normalized start `225°`, dead
zone `[135°, 225°)` bisected at threshold `sweep + deadZone/2 = 315°` of
relative angle), angle `200°` has relative angle `335° ≥ 315°` and snaps to
`min = 0`; angle `160°` has relative angle `295° < 315°` and snaps to
`max = 100`; angle `340°` is inside the sweep (relative `115°`) and maps
proportionally to `1150/27 ≈ 42.6`. -/
theorem deadzone_bisection_amended :
    (demoKnob.updateValueFromAngle 200).1.Value = 0 ∧
    (demoKnob.updateValueFromAngle 160).1.Value = 100 ∧
    (demoKnob.updateValueFromAngle 340).1.Value = 1150 / 27 := by
  have h200 : demoKnob.angleToValue 200 = 0 := by
    simp only [RotatingKnob.angleToValue, demoKnob, normAngle_neg135,
      @normAngle_of_mem 135 (by norm_num) (by norm_num)]
    norm_num
  have h160 : demoKnob.angleToValue 160 = 100 := by
    simp only [RotatingKnob.angleToValue, demoKnob, normAngle_neg135,
      @normAngle_of_mem 135 (by norm_num) (by norm_num)]
    norm_num
  have h340 : demoKnob.angleToValue 340 = 1150 / 27 := by
    simp only [RotatingKnob.angleToValue, demoKnob, normAngle_neg135,
      @normAngle_of_mem 135 (by norm_num) (by norm_num)]
    norm_num
  refine ⟨?_, ?_, ?_⟩
  · rw [RotatingKnob.updateValueFromAngle, SetValue_fst_Value, h200,
      setValueRaw_of_mem (by norm_num [demoKnob]) (by norm_num [demoKnob])]
  · rw [RotatingKnob.updateValueFromAngle, SetValue_fst_Value, h160,
      setValueRaw_of_mem (by norm_num [demoKnob]) (by norm_num [demoKnob])]
  · rw [RotatingKnob.updateValueFromAngle, SetValue_fst_Value, h340,
      setValueRaw_of_mem (by norm_num [demoKnob]) (by norm_num [demoKnob])]

/-- C7: on a non-disabled knob, `TypedKey` uses the effective step (`Step`,
or `(Max - Min)/100` when `Step` is zero): Up/Right delegate to
`SetValue(Value + step)`, Down/Left to `SetValue(Value - step)`,
PageUp/PageDown to `SetValue(Value ± step*10)`, Home to `SetValue(Min)`,
End to `SetValue(Max)`, each followed by an `OnChangeEnded` with the
resulting value; when the value changes, the events are exactly
`OnChanged` immediately followed by `OnChangeEnded`. -/
theorem typedKey_steps (k : RotatingKnob) (hd : k.disabled = false) :
    let step := if k.Step = 0 then (k.Max - k.Min) / 100 else k.Step
    let viaSet := fun t : ℚ => ((k.SetValue t).1,
      (k.SetValue t).2 ++ [KnobEvent.changeEnded (k.SetValue t).1.Value])
    k.TypedKey KeyName.up = viaSet (k.Value + step) ∧
    k.TypedKey KeyName.right = viaSet (k.Value + step) ∧
    k.TypedKey KeyName.down = viaSet (k.Value - step) ∧
    k.TypedKey KeyName.left = viaSet (k.Value - step) ∧
    k.TypedKey KeyName.pageUp = viaSet (k.Value + step * 10) ∧
    k.TypedKey KeyName.pageDown = viaSet (k.Value - step * 10) ∧
    k.TypedKey KeyName.home = viaSet k.Min ∧
    k.TypedKey KeyName.kEnd = viaSet k.Max ∧
    (∀ t : ℚ, k.setValueRaw t ≠ k.Value →
      (viaSet t).2 = [KnobEvent.changed (k.setValueRaw t),
                      KnobEvent.changeEnded (k.setValueRaw t)]) := by
  refine ⟨?_, ?_, ?_, ?_, ?_, ?_, ?_, ?_, ?_⟩
  · simp [RotatingKnob.TypedKey, hd]
  · simp [RotatingKnob.TypedKey, hd]
  · simp [RotatingKnob.TypedKey, hd]
  · simp [RotatingKnob.TypedKey, hd]
  · simp [RotatingKnob.TypedKey, hd]
  · simp [RotatingKnob.TypedKey, hd]
  · simp [RotatingKnob.TypedKey, hd]
  · simp [RotatingKnob.TypedKey, hd]
  · intro t ht
    simp only [SetValue_of_ne ht, SetValue_fst_Value]
    simp

/-- Witness for C7: on the concrete knob (value `50`, step `1`), the Home key
stores `Min = 0` and fires `OnChanged(0)` then `OnChangeEnded(0)`. -/
theorem typedKey_steps_witness :
    demoKnob.TypedKey KeyName.home =
      ({ demoKnob with Value := 0 },
       [KnobEvent.changed 0, KnobEvent.changeEnded 0]) := by
  have h := (typedKey_steps demoKnob rfl).2.2.2.2.2.2.1
  simp only at h
  rw [h]
  have hraw : demoKnob.setValueRaw demoKnob.Min =
      demoKnob.Min :=
    setValueRaw_of_mem (le_refl _) (by norm_num [demoKnob])
  have hne : demoKnob.setValueRaw demoKnob.Min ≠ demoKnob.Value := by
    rw [hraw]
    norm_num [demoKnob]
  rw [SetValue_of_ne hne, hraw]
  norm_num [demoKnob]

/-- C10: when the knob is disabled, `Dragged`, `Tapped`, `TypedKey` and
`Scrolled` leave the whole state unchanged and fire no notifications. -/
theorem disabled_handlers_noop (k : RotatingKnob) (hd : k.disabled = true) :
    (∀ a : ℚ, k.Dragged a = (k, [])) ∧
    (∀ a : ℚ, k.Tapped a = (k, [])) ∧
    (∀ key : KeyName, k.TypedKey key = (k, [])) ∧
    (∀ dy : ℚ, k.Scrolled dy = (k, [])) := by
  refine ⟨fun a => ?_, fun a => ?_, fun key => ?_, fun dy => ?_⟩
  · simp [RotatingKnob.Dragged, hd]
  · simp [RotatingKnob.Tapped, hd]
  · simp [RotatingKnob.TypedKey, hd]
  · simp [RotatingKnob.Scrolled, hd]

/-- Witness for C10: the concrete disabled knob ignores a drag to angle
`90°`, a tap, the Up key and a scroll tick. -/
theorem disabled_handlers_noop_witness :
    offKnob.Dragged 90 = (offKnob, []) ∧
    offKnob.Tapped 90 = (offKnob, []) ∧
    offKnob.TypedKey KeyName.up = (offKnob, []) ∧
    offKnob.Scrolled 1 = (offKnob, []) :=
  ⟨(disabled_handlers_noop offKnob rfl).1 90,
   (disabled_handlers_noop offKnob rfl).2.1 90,
   (disabled_handlers_noop offKnob rfl).2.2.1 KeyName.up,
   (disabled_handlers_noop offKnob rfl).2.2.2 1⟩

/-- C8: assuming `Min < Max` and `Min ≤ Value ≤ Max`, every mutating
operation — `SetValue` with any argument, `updateValueFromAngle` with any
angle, `TypedKey` with any key, `Scrolled` with any delta — leaves the
stored value inside `[Min, Max]`, for wrapping and non-wrapping knobs
alike. -/
theorem mutations_preserve_range (k : RotatingKnob) (hlt : k.Min < k.Max)
    (hv1 : k.Min ≤ k.Value) (hv2 : k.Value ≤ k.Max) :
    (∀ v : ℚ, k.Min ≤ (k.SetValue v).1.Value ∧
      (k.SetValue v).1.Value ≤ k.Max) ∧
    (∀ a : ℚ, k.Min ≤ (k.updateValueFromAngle a).1.Value ∧
      (k.updateValueFromAngle a).1.Value ≤ k.Max) ∧
    (∀ key : KeyName, k.Min ≤ (k.TypedKey key).1.Value ∧
      (k.TypedKey key).1.Value ≤ k.Max) ∧
    (∀ dy : ℚ, k.Min ≤ (k.Scrolled dy).1.Value ∧
      (k.Scrolled dy).1.Value ≤ k.Max) := by
  have hset : ∀ v : ℚ, k.Min ≤ (k.SetValue v).1.Value ∧
      (k.SetValue v).1.Value ≤ k.Max := by
    intro v
    rw [SetValue_fst_Value]
    exact setValueRaw_mem hlt v
  refine ⟨hset, fun a => ?_, fun key => ?_, fun dy => ?_⟩
  · rw [RotatingKnob.updateValueFromAngle]
    exact hset _
  · by_cases hd : k.disabled
    · simp only [RotatingKnob.TypedKey, hd, if_true]
      exact ⟨hv1, hv2⟩
    · cases key <;>
        simp only [RotatingKnob.TypedKey, hd, Bool.false_eq_true, if_false] <;>
        first
          | exact ⟨hv1, hv2⟩
          | exact hset _
  · by_cases hd : k.disabled
    · simp only [RotatingKnob.Scrolled, hd, if_true]
      exact ⟨hv1, hv2⟩
    · by_cases h1 : dy > 0
      · simp only [RotatingKnob.Scrolled, hd, Bool.false_eq_true, if_false,
          if_pos h1]
        exact hset _
      · by_cases h2 : dy < 0
        · simp only [RotatingKnob.Scrolled, hd, Bool.false_eq_true, if_false,
            if_neg h1, if_pos h2]
          exact hset _
        · simp only [RotatingKnob.Scrolled, hd, Bool.false_eq_true, if_false,
            if_neg h1, if_neg h2]
          exact ⟨hv1, hv2⟩

/-- Witness for C8 at the concrete knob: an out-of-range `SetValue(150)`, a
dead-zone angle `200°`, the PageUp key and a scroll tick all leave the value
inside `[0, 100]`. -/
theorem mutations_preserve_range_witness :
    (demoKnob.Min ≤ (demoKnob.SetValue 150).1.Value ∧
      (demoKnob.SetValue 150).1.Value ≤ demoKnob.Max) ∧
    (demoKnob.Min ≤ (demoKnob.updateValueFromAngle 200).1.Value ∧
      (demoKnob.updateValueFromAngle 200).1.Value ≤ demoKnob.Max) ∧
    (demoKnob.Min ≤ (demoKnob.TypedKey KeyName.pageUp).1.Value ∧
      (demoKnob.TypedKey KeyName.pageUp).1.Value ≤ demoKnob.Max) ∧
    (demoKnob.Min ≤ (demoKnob.Scrolled 1).1.Value ∧
      (demoKnob.Scrolled 1).1.Value ≤ demoKnob.Max) := by
  have h := mutations_preserve_range demoKnob (by norm_num [demoKnob])
    (by norm_num [demoKnob]) (by norm_num [demoKnob])
  exact ⟨h.1 150, h.2.1 200, h.2.2.1 KeyName.pageUp, h.2.2.2 1⟩

/-- C9: the wrapping loops of `SetValue` terminate whenever `Min < Max`
(their fuel-indexed forms finish with some finite fuel, producing exactly
the value `SetValue` stores), and the angle-normalization loops of
`updateValueFromAngle` terminate for every finite angle (producing
`normAngle`); no input is rejected. -/
theorem loops_terminate :
    (∀ (k : RotatingKnob) (v : ℚ), k.Wrapping = true → k.Min < k.Max →
      ∃ (n m : ℕ) (r : ℚ),
        wrapUpFuel k.Min (k.Max - k.Min) n v = some r ∧
        wrapDownFuel k.Max (k.Max - k.Min) m r = some (k.setValueRaw v)) ∧
    (∀ a : ℚ, ∃ (n m : ℕ) (r : ℚ),
      wrapUpFuel 0 360 n a = some r ∧
      normDownFuel m r = some (normAngle a)) := by
  have hup : ∀ (lo range : ℚ) (h : 0 < range) (v : ℚ),
      ∃ n : ℕ, wrapUpFuel lo range n v = some (wrapUp lo range h v) := by
    intro lo range h v
    induction v using wrapUp.induct lo range h with
    | case1 v hv ih =>
        obtain ⟨n, hn⟩ := ih
        exact ⟨n + 1, by rw [wrapUp_of_lt h hv]; simp [wrapUpFuel, hv, hn]⟩
    | case2 v hv =>
        exact ⟨0, by rw [wrapUp_of_not_lt h hv]; simp [wrapUpFuel, hv]⟩
  have hdown : ∀ (hi range : ℚ) (h : 0 < range) (v : ℚ),
      ∃ n : ℕ, wrapDownFuel hi range n v = some (wrapDown hi range h v) := by
    intro hi range h v
    induction v using wrapDown.induct hi range h with
    | case1 v hv ih =>
        obtain ⟨n, hn⟩ := ih
        exact ⟨n + 1, by rw [wrapDown_of_gt h hv]; simp [wrapDownFuel, hv, hn]⟩
    | case2 v hv =>
        exact ⟨0, by rw [wrapDown_of_not_gt h hv]; simp [wrapDownFuel, hv]⟩
  have hnorm : ∀ a : ℚ,
      ∃ n : ℕ, normDownFuel n a = some (normDown a) := by
    intro a
    induction a using normDown.induct with
    | case1 a ha ih =>
        obtain ⟨n, hn⟩ := ih
        exact ⟨n + 1, by rw [normDown_of_ge ha]; simp [normDownFuel, ha, hn]⟩
    | case2 a ha =>
        exact ⟨0, by rw [normDown_of_lt (not_le.mp ha)]; simp [normDownFuel, ha]⟩
  constructor
  · intro k v hw hlt
    have hr : 0 < k.Max - k.Min := by linarith
    obtain ⟨n, hn⟩ := hup k.Min (k.Max - k.Min) hr v
    obtain ⟨m, hm⟩ := hdown k.Max (k.Max - k.Min) hr
      (wrapUp k.Min (k.Max - k.Min) hr v)
    refine ⟨n, m, wrapUp k.Min (k.Max - k.Min) hr v, hn, ?_⟩
    rw [hm]
    congr 1
    unfold RotatingKnob.setValueRaw
    rw [if_neg (by simp [hw]), dif_pos hr]
  · intro a
    obtain ⟨n, hn⟩ := hup 0 360 (by norm_num) a
    obtain ⟨m, hm⟩ := hnorm (wrapUp 0 360 (by norm_num) a)
    refine ⟨n, m, wrapUp 0 360 (by norm_num) a, hn, ?_⟩
    rw [hm]
    congr 1

/-- Witness for C9: on the wrapping knob over `[0, 100]` the loops for
`SetValue(-10)` finish, and the normalization loops finish for angle
`-135°`. -/
theorem loops_terminate_witness :
    (∃ (n m : ℕ) (r : ℚ),
      wrapUpFuel wrapKnob.Min (wrapKnob.Max - wrapKnob.Min) n (-10) = some r ∧
      wrapDownFuel wrapKnob.Max (wrapKnob.Max - wrapKnob.Min) m r =
        some (wrapKnob.setValueRaw (-10))) ∧
    (∃ (n m : ℕ) (r : ℚ),
      wrapUpFuel 0 360 n (-135) = some r ∧
      normDownFuel m r = some (normAngle (-135))) :=
  ⟨loops_terminate.1 wrapKnob (-10) rfl (by norm_num [wrapKnob, demoKnob]),
   loops_terminate.2 (-135)⟩

/-- The radian result of Go's `Atan2` on finite arguments lies in
`[-π, π]`, case by case over the special cases and quadrants. -/
theorem atan2_mem (y x : SReal) :
    -Real.pi ≤ atan2 y x ∧ atan2 y x ≤ Real.pi := by
  have hpi := Real.pi_pos
  simp only [atan2]
  split_ifs with h1 h2 h3 h4 h5 h6 h7
  · constructor <;> linarith
  · constructor <;> linarith
  · constructor <;> linarith
  · constructor <;> linarith
  · constructor <;> linarith
  · have ha := Real.neg_pi_div_two_lt_arctan (y.val / x.val)
    constructor <;> linarith
  · have ha := Real.arctan_lt_pi_div_two (y.val / x.val)
    constructor <;> linarith
  · have ha := Real.neg_pi_div_two_lt_arctan (y.val / x.val)
    have hb := Real.arctan_lt_pi_div_two (y.val / x.val)
    constructor <;> linarith

/-- At the widget center both deltas are `+0`, the negation turns `dy` into
`-0`, and Go's `Atan2(+0, -0) = π` makes the returned angle `180`. -/
theorem getAngleFromPoint_center (w h : ℝ) :
    getAngleFromPoint w h (w / 2) (h / 2) = 180 := by
  have hpi := Real.pi_pos
  have hsub : ∀ a : ℝ, SReal.sub a a = ⟨0, false⟩ := by
    intro a
    simp [SReal.sub]
  simp only [getAngleFromPoint, hsub, SReal.negate, atan2]
  norm_num
  have h180 : Real.pi * 180 / Real.pi = 180 := by
    field_simp
  rw [h180]
  norm_num

/-- C5 counterexample: on a `100 × 100` widget, the point `(50, 50)` is the
center, yet `getAngleFromPoint` returns `180`, not the claimed `0`: the code
computes `Atan2(+0, -0)`, which is `π` by Go's signed-zero special case. -/
theorem pointAngle_center_counterexample :
    getAngleFromPoint 100 100 50 50 = 180 ∧
    getAngleFromPoint 100 100 50 50 ≠ 0 := by
  have h : getAngleFromPoint 100 100 50 50 = 180 := by
    rw [show (50 : ℝ) = 100 / 2 by norm_num]
    exact getAngleFromPoint_center 100 100
  exact ⟨h, by rw [h]; norm_num⟩

/-- C5 amended: `getAngleFromPoint` always returns an angle in `[0, 360)`,
and returns `180` when the point coincides with the widget center (Go's
`Atan2(+0, -0) = π` special case, the `dy = +0` delta being negated to
`-0`). -/
theorem pointAngle_normalized_amended :
    (∀ w h x y : ℝ, 0 ≤ getAngleFromPoint w h x y ∧
      getAngleFromPoint w h x y < 360) ∧
    (∀ w h : ℝ, getAngleFromPoint w h (w / 2) (h / 2) = 180) := by
  have hpi := Real.pi_pos
  have key : ∀ r : ℝ, -Real.pi ≤ r → r ≤ Real.pi →
      (-180 : ℝ) ≤ r * 180 / Real.pi ∧ r * 180 / Real.pi ≤ 180 := by
    intro r h1 h2
    constructor
    · rw [le_div_iff₀ hpi]
      nlinarith
    · rw [div_le_iff₀ hpi]
      nlinarith
  refine ⟨fun w h x y => ?_, getAngleFromPoint_center⟩
  obtain ⟨ha, hb⟩ := atan2_mem (SReal.sub x (w / 2)) (SReal.sub y (h / 2)).negate
  obtain ⟨hc, hd⟩ := key _ ha hb
  simp only [getAngleFromPoint]
  split_ifs with hneg
  · constructor <;> linarith
  · constructor <;> linarith
